import Mathlib

/-!
Shallow embedding of the scroll-text engine of `main.go` (repository
`go-dom-intro`).  Go strings are modelled as `List Char` (the message is
pure ASCII, so bytes and characters coincide); `float64` offsets, speeds
and scale factors are modelled as `ℚ` (every quantity the engine
manipulates is produced by field operations on exactly representable
values).  Rendering calls (`drawAtOffset`, canvases, fonts) only paint
pixels and never touch the engine state, so they are omitted from the
state transitions.
-/

set_option maxRecDepth 40000

namespace Intro

/-- Translation of `parseControlCode(text, i)` from `main.go`.  The Go
function inspects `text[i:i+5]` (after a bounds check and a sentinel
check) and compares it with the four literal tokens; here the slice
`text[i:]` is passed as a list and `List.take 5` plays the role of
`text[i:i+5]` (a list shorter than 5 compares unequal to every 5-element
literal, which reproduces the `i+4 >= len(text)` guard, and the `'^'`
sentinel test is subsumed by the literal comparisons).  `some k` stands
for `(k, true)` and `none` for `(0, false)`. -/
def parseControlCode (l : List Char) : Option Nat :=
  if l.take 5 = ['^', 'C', 's', '0', ';'] then some 0
  else if l.take 5 = ['^', 'C', 's', '1', ';'] then some 1
  else if l.take 5 = ['^', 'C', 's', '2', ';'] then some 2
  else if l.take 5 = ['^', 'C', 's', '3', ';'] then some 3
  else none

/-- Translation of `countVisibleChars` from `main.go`: walk the string,
skip 5 positions (`i += 5`) over a recognized control code, otherwise
count one visible character and advance by one.  The 5-deep pattern
spells out the skip: a control code can only be recognized when at
least five characters remain (`i+4 >= len(text)` fails), so on shorter
suffixes the walk always counts one character. -/
def countVisibleChars : List Char → Nat
  | [] => 0
  | c :: r1 :: r2 :: r3 :: r4 :: rest =>
    if (parseControlCode (c :: r1 :: r2 :: r3 :: r4 :: rest)).isSome then
      countVisibleChars rest
    else
      1 + countVisibleChars (r1 :: r2 :: r3 :: r4 :: rest)
  | _ :: rest => 1 + countVisibleChars rest

/-- State of one scroll-text lane, translation of the Go struct
`ScrollText`.  The `canvas` and `font` images are replaced by the only
datum the engine logic reads from them: the canvas pixel width
(`canvas.Bounds().Dx()`). -/
structure ScrollText where
  text : List Char
  speed : ℚ
  offset : ℚ
  tileW : Nat
  tileH : Nat
  scaleX : ℚ
  scaleY : ℚ
  visibleChars : Nat
  canvasW : Nat
  deriving Repr, DecidableEq

/-- Translation of `Game.newScrollText`: the offset starts at the canvas
width and `visibleChars` is computed from the text. -/
def newScrollText (canvasW tileW tileH : Nat) (scaleX scaleY : ℚ)
    (text : List Char) : ScrollText :=
  { text := text
    speed := 0
    offset := (canvasW : ℚ)
    tileW := tileW
    tileH := tileH
    scaleX := scaleX
    scaleY := scaleY
    visibleChars := countVisibleChars text
    canvasW := canvasW }

/-- Translation of `ScrollText.draw` (the per-tick advance of the master
tier): subtract the speed, return early when there are no visible
characters, otherwise wrap when the offset has moved a full text width
off screen.  The trailing `drawAtOffset` call only paints the canvas and
is dropped. -/
def ScrollText.draw (st : ScrollText) : ScrollText :=
  let st := { st with offset := st.offset - st.speed }
  if st.visibleChars = 0 then st
  else
    let scaledTileW : ℚ := (st.tileW : ℚ) * st.scaleX
    let totalWidth : ℚ := (st.visibleChars : ℚ) * scaledTileW
    if 0 < totalWidth ∧ st.offset ≤ -totalWidth then
      { st with offset := st.offset + totalWidth + (st.canvasW : ℚ) }
    else st

/-- Translation of `ScrollText.drawAt` (used for the follower tiers): the
offset is set to the given value; no wrap check is performed and the
speed is untouched.  The `visibleChars == 0` early return and the
`drawAtOffset` call only affect painting, not the state. -/
def ScrollText.drawAt (st : ScrollText) (offset : ℚ) : ScrollText :=
  { st with offset := offset }

/-- Translation of the Go struct `FontChange`. -/
structure FontChange where
  position : Nat
  newSize : Nat
  deriving Repr, DecidableEq

/-- Recursive rendering of the loop body of `Game.preAnalyzeFontChanges`:
given the running glyph counter, return the recorded font changes of the
remaining text together with the final glyph counter (`totalGlyphs`). -/
def preAnalyzeGo (glyphPos : Nat) : List Char → List FontChange × Nat
  | [] => ([], glyphPos)
  | c :: r1 :: r2 :: r3 :: r4 :: rest =>
    match parseControlCode (c :: r1 :: r2 :: r3 :: r4 :: rest) with
    | some size =>
      let r := preAnalyzeGo glyphPos rest
      (⟨glyphPos, size⟩ :: r.1, r.2)
    | none => preAnalyzeGo (glyphPos + 1) (r1 :: r2 :: r3 :: r4 :: rest)
  | _ :: rest => preAnalyzeGo (glyphPos + 1) rest

/-- The `fontChanges` list produced by `preAnalyzeFontChanges` for a
given master text. -/
def fontChangesOf (text : List Char) : List FontChange :=
  (preAnalyzeGo 0 text).1

/-- The `totalGlyphs` counter produced by `preAnalyzeFontChanges`. -/
def totalGlyphsOf (text : List Char) : Nat :=
  (preAnalyzeGo 0 text).2

/-- The lookup loop of `updateActSizeFromScroll`:
`size := acc; for change in changes { if position <= glyphPos { size =
newSize } else { break } }`. -/
def lookupSize (changes : List FontChange) (glyphPos : ℤ) (acc : Nat) :
    Nat :=
  match changes with
  | [] => acc
  | change :: rest =>
    if (change.position : ℤ) ≤ glyphPos then
      lookupSize rest glyphPos change.newSize
    else acc

/-- Recursive rendering of the loop body of `Game.rebuildText`: `active`
is the current tier flag; control codes are copied through verbatim
(`text[i : i+5]`, i.e. `take 5`) and flip the flag, visible characters
are kept when active and blanked to `' '` otherwise. -/
def rebuildGo (size : Nat) (active : Bool) : List Char → List Char
  | [] => []
  | c :: r1 :: r2 :: r3 :: r4 :: rest =>
    match parseControlCode (c :: r1 :: r2 :: r3 :: r4 :: rest) with
    | some codeSize =>
      c :: r1 :: r2 :: r3 :: r4 :: rebuildGo size (codeSize == size) rest
    | none =>
      (if active then c else ' ') ::
        rebuildGo size active (r1 :: r2 :: r3 :: r4 :: rest)
  | c :: rest => (if active then c else ' ') :: rebuildGo size active rest

/-- Translation of `Game.rebuildText(size, defaultActive)` reading the
master message `text` (`g.fullText` in Go). -/
def rebuildText (text : List Char) (size : Nat) (defaultActive : Bool) :
    List Char :=
  rebuildGo size defaultActive text

/-- The scroll/timing fields of the Go `Game` struct that the engine
logic reads and writes. -/
structure GameState where
  scrollText1 : ScrollText
  scrollText2 : ScrollText
  scrollText3 : ScrollText
  scrollText4 : ScrollText
  actSize : Nat
  spinc : ℚ
  fontChanges : List FontChange
  totalGlyphs : Nat
  deriving Repr, DecidableEq

/-- Translation of `Game.setSpeed`: the active size selects one of four
hard-coded base-speed rows, each entry scaled by the multiplier
`spinc`.  The Go `switch` has no default case, so any other `actSize`
leaves the speeds unchanged. -/
def GameState.setSpeed (g : GameState) : GameState :=
  match g.actSize with
  | 0 =>
    { g with
      scrollText1 := { g.scrollText1 with speed := 8 * g.spinc }
      scrollText2 := { g.scrollText2 with speed := 16 * g.spinc }
      scrollText3 := { g.scrollText3 with speed := 32 * g.spinc }
      scrollText4 := { g.scrollText4 with speed := 64 * g.spinc } }
  | 1 =>
    { g with
      scrollText1 := { g.scrollText1 with speed := 4 * g.spinc }
      scrollText2 := { g.scrollText2 with speed := 8 * g.spinc }
      scrollText3 := { g.scrollText3 with speed := 16 * g.spinc }
      scrollText4 := { g.scrollText4 with speed := 32 * g.spinc } }
  | 2 =>
    { g with
      scrollText1 := { g.scrollText1 with speed := 2 * g.spinc }
      scrollText2 := { g.scrollText2 with speed := 4 * g.spinc }
      scrollText3 := { g.scrollText3 with speed := 8 * g.spinc }
      scrollText4 := { g.scrollText4 with speed := 16 * g.spinc } }
  | 3 =>
    { g with
      scrollText1 := { g.scrollText1 with speed := 1 * g.spinc }
      scrollText2 := { g.scrollText2 with speed := 2 * g.spinc }
      scrollText3 := { g.scrollText3 with speed := 4 * g.spinc }
      scrollText4 := { g.scrollText4 with speed := 8 * g.spinc } }
  | _ => g

/-- The master-tier selection at the top of `updateActSizeFromScroll`:
`st := g.scrollText1; switch g.actSize { case 1: st = g.scrollText2;
case 2: st = g.scrollText3; case 3: st = g.scrollText4 }`. -/
def GameState.masterTier (g : GameState) : ScrollText :=
  match g.actSize with
  | 1 => g.scrollText2
  | 2 => g.scrollText3
  | 3 => g.scrollText4
  | _ => g.scrollText1

/-- Translation of `Game.updateActSizeFromScroll`.  `math.Floor` and
`math.Ceil` become `Int.floor` / `Int.ceil` on `ℚ`; the Go `int(...)`
conversions are applied to already-integral values.  The `st == nil`
guard is dropped: in the embedding every tier is a value, mirroring the
program after `NewGame` where all four tiers are always non-nil. -/
def GameState.updateActSizeFromScroll (g : GameState) : GameState :=
  if g.totalGlyphs = 0 then g
  else
    let st := g.masterTier
    let tileW : ℚ := (st.tileW : ℚ) * st.scaleX
    if tileW ≤ 0 then g
    else
      let leftGlyph : ℤ := max 0 ⌊-st.offset / tileW⌋
      let visibleGlyphs : ℤ := ⌈(st.canvasW : ℚ) / tileW⌉ + 1
      let glyphPos : ℤ :=
        if leftGlyph + visibleGlyphs ≥ (g.totalGlyphs : ℤ) then
          (g.totalGlyphs : ℤ) - 1
        else leftGlyph + visibleGlyphs
      let size := lookupSize g.fontChanges glyphPos 0
      if size ≠ g.actSize then
        GameState.setSpeed { g with actSize := size }
      else g

/-- The scroll-text portion of `Game.Update`: the master tier
(`scrollText1`) advances via `draw`, the three follower tiers are driven
via `drawAt` to the offset derived from the master's new offset and
their scale, and finally `updateActSizeFromScroll` runs.  The `nil`
guards are dropped as in `updateActSizeFromScroll`. -/
def GameState.scrollTick (g : GameState) : GameState :=
  let st1 := g.scrollText1.draw
  let baseOffset := st1.offset
  let baseWidth : ℚ := (st1.canvasW : ℚ)
  let st2 := g.scrollText2.drawAt
    (baseOffset * g.scrollText2.scaleX + (1 - g.scrollText2.scaleX) * baseWidth)
  let st3 := g.scrollText3.drawAt
    (baseOffset * g.scrollText3.scaleX + (1 - g.scrollText3.scaleX) * baseWidth)
  let st4 := g.scrollText4.drawAt
    (baseOffset * g.scrollText4.scaleX + (1 - g.scrollText4.scaleX) * baseWidth)
  GameState.updateActSizeFromScroll
    { g with
      scrollText1 := st1
      scrollText2 := st2
      scrollText3 := st3
      scrollText4 := st4 }

/-- The `spinc` update performed by `Game.Update` while F1 (speed up) is
pressed. -/
def spincUp (spinc : ℚ) : ℚ :=
  if spinc < 4 ∧ 1 ≤ spinc then spinc + 1
  else if spinc = 1 / 2 then 1
  else if spinc = 1 / 4 then 1 / 2
  else spinc

/-- The `spinc` update performed by `Game.Update` while F2 (speed down)
is pressed. -/
def spincDown (spinc : ℚ) : ℚ :=
  if 1 < spinc then spinc - 1
  else if spinc = 1 / 2 then 1 / 4
  else if spinc = 1 then 1 / 2
  else spinc

/-! Specification-side token view of the annotated message.  A message
is a sequence of directive tokens and literal characters; the scanners
of `main.go` (`countVisibleChars`, `rebuildText`,
`preAnalyzeFontChanges`) are proved below to be folds over this view. -/

/-- One token of the annotated message: a tier-change directive or a
single literal character. -/
inductive Tok where
  | dir (code : Nat) : Tok
  | lit (c : Char) : Tok
  deriving DecidableEq, Repr

/-- The five characters of the directive token selecting tier `code`
(`"^Cs0;"` … `"^Cs3;"` for `code < 4`). -/
def dirChars (code : Nat) : List Char :=
  ['^', 'C', 's', Char.ofNat (48 + code), ';']

/-- Tokenize a message with the program's own scanner discipline:
recognize a control code (consuming five characters) or take one
literal character. -/
def toks : List Char → List Tok
  | [] => []
  | c :: r1 :: r2 :: r3 :: r4 :: rest =>
    match parseControlCode (c :: r1 :: r2 :: r3 :: r4 :: rest) with
    | some code => .dir code :: toks rest
    | none => .lit c :: toks (r1 :: r2 :: r3 :: r4 :: rest)
  | c :: rest => .lit c :: toks rest

/-- Render a token list back to characters. -/
def untoks : List Tok → List Char
  | [] => []
  | .dir code :: ts => dirChars code ++ untoks ts
  | .lit c :: ts => c :: untoks ts

/-- The tier-masking of the Tier Text Rebuilder expressed on the token
view: directives are kept and flip the active flag (to `code == size`,
as in `rebuildText`), literals are kept when active and blanked
otherwise. -/
def maskToks (size : Nat) (active : Bool) : List Tok → List Tok
  | [] => []
  | .dir code :: ts => .dir code :: maskToks size (code == size) ts
  | .lit c :: ts => .lit (if active then c else ' ') :: maskToks size active ts

/-- The literal (visible) characters of a token list, in order: the
glyph stream. -/
def litChars : List Tok → List Char
  | [] => []
  | .dir _ :: ts => litChars ts
  | .lit c :: ts => c :: litChars ts

/-- The Font-Change Index of a token list: `(glyph position, tier)` of
each directive, with the glyph counter threaded through the literals. -/
def idxToks (glyphPos : Nat) : List Tok → List FontChange
  | [] => []
  | .dir code :: ts => ⟨glyphPos, code⟩ :: idxToks glyphPos ts
  | .lit _ :: ts => idxToks (glyphPos + 1) ts

/-- The tier active at each glyph position: `cur` is the tier selected
by the most recent directive (initially the implicit default tier 0,
which is also the tier built with `defaultActive = true`). -/
def tiersToks (cur : Nat) : List Tok → List Nat
  | [] => []
  | .dir code :: ts => tiersToks code ts
  | .lit _ :: ts => cur :: tiersToks cur ts

/-- Byte position (in the rendered character list) of the `p`-th
literal of a token list. -/
def litBytePos : List Tok → Nat → Nat
  | [], _ => 0
  | .dir _ :: ts, p => 5 + litBytePos ts p
  | .lit _ :: _, 0 => 0
  | .lit _ :: ts, p + 1 => 1 + litBytePos ts p

/-- `litRun5 c ts` holds when the literal character `c` followed by the
tokens `ts` would spell a complete directive token out of five literal
characters. -/
def litRun5 : Char → List Tok → Bool
  | '^', .lit 'C' :: .lit 's' :: .lit c :: .lit ';' :: _ =>
    (c == '0') || (c == '1') || (c == '2') || (c == '3')
  | _, _ => false

/-- Well-formedness of a token list: directive codes are tier ids
(`< 4`, so they render to real control codes) and no five consecutive
literals spell a directive (so rendering followed by re-tokenizing is
the identity).  The tokenization of any message satisfies this. -/
def goodToks : List Tok → Bool
  | [] => true
  | .dir code :: ts => decide (code < 4) && goodToks ts
  | .lit c :: ts => !litRun5 c ts && goodToks ts

/-- The Font-Change Index lookup rule as the spec words it: the tier of
the last entry whose glyph position is `≤ glyphPos`, or the implicit
default tier 0 when no entry precedes it. -/
def lookupLast (changes : List FontChange) (glyphPos : ℤ) : Nat :=
  match (changes.filter fun c => decide ((c.position : ℤ) ≤ glyphPos)).getLast? with
  | some c => c.newSize
  | none => 0

/-- The Tier Activity Resolver as the spec words it: `leftGlyph`
clamped to `≥ 0`, `visibleGlyphs` from the ceiling of the canvas width,
`glyphPos = min (leftGlyph + visibleGlyphs) (totalGlyphs − 1)`, the
active tier resolved by the last-entry rule, and on a change the stored
tier updated and all four speeds recomputed. -/
def resolveSpec (g : GameState) : GameState :=
  let st := g.masterTier
  let tileW : ℚ := (st.tileW : ℚ) * st.scaleX
  let leftGlyph : ℤ := max 0 ⌊-st.offset / tileW⌋
  let visibleGlyphs : ℤ := ⌈(st.canvasW : ℚ) / tileW⌉ + 1
  let glyphPos : ℤ := min (leftGlyph + visibleGlyphs) ((g.totalGlyphs : ℤ) - 1)
  let size := lookupLast g.fontChanges glyphPos
  if size = g.actSize then g else GameState.setSpeed { g with actSize := size }

/-- A building block of an annotated message: a literal segment or a
directive token for tier `code`. -/
inductive Piece where
  | seg (s : List Char) : Piece
  | tok (code : Nat) : Piece
  deriving DecidableEq, Repr

/-- The characters contributed by one piece. -/
def renderPiece : Piece → List Char
  | .seg s => s
  | .tok code => dirChars code

/-- Concatenate the pieces into a message. -/
def renderPieces : List Piece → List Char
  | [] => []
  | p :: ps => renderPiece p ++ renderPieces ps

/-- Total length of the literal segments of a piece list. -/
def litLen : List Piece → Nat
  | [] => 0
  | .seg s :: ps => s.length + litLen ps
  | .tok _ :: ps => litLen ps

/-- A character list is directive-free when the parser recognizes no
control code at any of its positions. -/
def dirFree : List Char → Bool
  | [] => true
  | c :: rest => (parseControlCode (c :: rest)).isNone && dirFree rest

/-- Whether a piece is a literal segment. -/
def Piece.isSeg : Piece → Bool
  | .seg _ => true
  | .tok _ => false

/-- Validity of the pieces: literal segments are directive-free and
directive tokens carry a tier id `< 4` (`"^Cs0;"` … `"^Cs3;"`). -/
def piecesOk : List Piece → Bool
  | [] => true
  | .seg s :: ps => dirFree s && piecesOk ps
  | .tok code :: ps => decide (code < 4) && piecesOk ps

/-- No two literal segments are adjacent in the piece list. -/
def noAdjacentSegs : List Piece → Bool
  | .seg _ :: .seg _ :: _ => false
  | _ :: ps => noAdjacentSegs ps
  | [] => true

/-- `totalWidth` as computed by `ScrollText.draw`:
`visibleChars × tileW × scaleX`. -/
def ScrollText.totalWidth (st : ScrollText) : ℚ :=
  (st.visibleChars : ℚ) * ((st.tileW : ℚ) * st.scaleX)

/-- The increment added by the wrap branch of `ScrollText.draw`:
`totalWidth + canvasWidth`, i.e. one full cycle of text plus one canvas
of leading blank space. -/
def ScrollText.wrapWidth (st : ScrollText) : ℚ :=
  st.totalWidth + (st.canvasW : ℚ)

/-- The offset transformation performed by one `ScrollText.draw` call,
as a pure function of the wrap threshold `T` (`totalWidth`), the canvas
width `C`, the speed `s` and the current offset `o`. -/
def drawStep (T C s o : ℚ) : ℚ :=
  if 0 < T ∧ o - s ≤ -T then o - s + T + C else o - s

/-- An apostrophe, spelled via its code point. -/
def apos : Char := Char.ofNat 39

/-- The master message returned by `Game.getFullText`, with the
`spc0`–`spc3` spacer variables (17, 9, 5 and 3 spaces) already spliced
in; each `++`-joined group is one `text :=` / `text +=` line of the Go
source. -/
def fullText : List Char :=
  ("          THE UNION IS PROUD TO PRESENT YOU :                 ^Cs2;INTERNATIONAL KARATE PLUS     ^Cs0;CRACKED  BY                 ^Cs3;DOM AND CORWIN   ^Cs1;FROM THE         ^Cs3;REPLICANTS AND DMA   ".toList)
  ++ ("^Cs1; PRESS F1-F5 AND SEE (IF YOU CAN !!!!) AND LIST..........    A SPECIAL HI TO WILD-XEROX OR RANK-COPPER MY MASTER!!!!!ARF.... HEEEUUUU JUST A LITTLE QUESTION : WHO HAVE         ".toList)
  ++ ("^Cs2;BARBARIAN 2 ????????     ^Cs1;RRRRHHHHHAAAAAAAAAAA!!!!!! ANYBODY ????? I NEED BLOOD RRRHHAAAA!!!!! NEED HEAD !!!!! OOOUUUIIIINNNN I WEEP .. I CRY...... I RAVE , I".toList ++ [apos] ++ "M DELIRIOUS I".toList ++ [apos] ++ "M CAUGHT IN THE ACT-HANDED!!!!!!!         ".toList)
  ++ ("^Cs0;OK KO I STOP, I RESET, I BREAK, I DRINK,I FLY, I CR...-CR... HIHIHI FINALLY I SAY :                 ^Cs3;SHEAT       ^Cs2;HEY HAVE-YOU CANAL PLUS??????????    WHAT ???????    I SAY CANAL PLUS    BORDEL !! (IN FRENCH)".toList)
  ++ (" YOU DON".toList ++ [apos] ++ "T HAVE !!!! BUY THIS AND YOU WILL SEE MY MASTER : I NAME : RANK-COOPER ARF ARF HE TURN ONE".toList ++ [apos] ++ "S BACK ON THE CAMERA    OOOUUFF!!!HIHI GGGGGGGGGOOOOOOOOODDDDDDDDD     ^Cs1;IT".toList ++ [apos] ++ "S ALL FOR DAY......         ".toList)
  ++ ("^Cs0;REMEMBER YOU BARBARIAN 2 AND CANAL PLUS AND MY MASTER OF COURSE........ HI TO : ALL MEMBERS OF DMA(ESPECIALLY LOCKBUSTER FOR ORIGINAL), DELTA FORCE, TEX, BLADE RUNNERS, CHON-CHON, ALDO, ST-CONNEXION, THE HOBBIT BROTHERS, ".toList)
  ++ ("ABC 85, THE BARBARIANS.......                 ".toList)
  ++ ("^Cs0;              ".toList)

/-- A ten-glyph directive-free text for the wraparound scenarios. -/
def scenarioText : List Char := "ABCDEFGHIJ".toList

/-- The tier of the wraparound scenario: `tileW = 40`, `scaleX = 1`,
ten visible glyphs, canvas width 640 (so the offset starts at 640, as
`newScrollText` sets it), speed 8. -/
def scenarioTier : ScrollText :=
  { newScrollText 640 40 32 1 1 scenarioText with speed := 8 }

/-- The Font-Change Index of the resolver scenario: `[(2,1), (4,0)]`. -/
def scenarioChanges : List FontChange := [⟨2, 1⟩, ⟨4, 0⟩]

/-- A concrete engine state with active tier 2 and multiplier 3, used
to instantiate the Speed Table claims. -/
def speedWitnessState : GameState :=
  { scrollText1 := scenarioTier, scrollText2 := scenarioTier,
    scrollText3 := scenarioTier, scrollText4 := scenarioTier,
    actSize := 2, spinc := 3, fontChanges := [], totalGlyphs := 0 }

/-- The concrete engine state of the resolver scenario: index
`[(2,1),(4,0)]`, six glyphs, master tier `scrollText1`. -/
def resolverWitnessState : GameState :=
  { scrollText1 := scenarioTier, scrollText2 := scenarioTier,
    scrollText3 := scenarioTier, scrollText4 := scenarioTier,
    actSize := 0, spinc := 1, fontChanges := scenarioChanges,
    totalGlyphs := 6 }

/-! ### Parsing lemmas -/

theorem parse_of_take5 {l : List Char} {d : Nat} (hd : d < 4)
    (ht : l.take 5 = dirChars d) : parseControlCode l = some d := by
  unfold parseControlCode
  rw [ht]
  interval_cases d <;> decide

theorem parse_some_take5 {l : List Char} {d : Nat}
    (h : parseControlCode l = some d) : d < 4 ∧ l.take 5 = dirChars d := by
  unfold parseControlCode at h
  split_ifs at h with e0 e1 e2 e3
  · obtain rfl := Option.some.inj h
    exact ⟨by norm_num, by rw [e0]; decide⟩
  · obtain rfl := Option.some.inj h
    exact ⟨by norm_num, by rw [e1]; decide⟩
  · obtain rfl := Option.some.inj h
    exact ⟨by norm_num, by rw [e2]; decide⟩
  · obtain rfl := Option.some.inj h
    exact ⟨by norm_num, by rw [e3]; decide⟩

theorem dirChars_length (d : Nat) : (dirChars d).length = 5 := rfl

theorem parse_dirChars_append {d : Nat} (hd : d < 4) (r : List Char) :
    parseControlCode (dirChars d ++ r) = some d := by
  apply parse_of_take5 hd
  have h2 : (dirChars d ++ r).take (dirChars d).length = dirChars d :=
    List.take_left _ _
  rw [dirChars_length] at h2
  exact h2

theorem dirChars_append_drop (d : Nat) (r : List Char) :
    (dirChars d ++ r).drop 5 = r := by
  have h2 : (dirChars d ++ r).drop (dirChars d).length = r :=
    List.drop_left _ _
  rw [dirChars_length] at h2
  exact h2

theorem take_succ_eq_cons {α : Type} {l : List α} {n : Nat} {x : α}
    {xs : List α} (h : l.take (n + 1) = x :: xs) :
    ∃ l', l = x :: l' ∧ l'.take n = xs := by
  cases l with
  | nil => cases h
  | cons a l' =>
    rw [List.take_succ_cons] at h
    injection h with h1 h2
    subst h1
    exact ⟨l', rfl, h2⟩

theorem parse_short_none {l : List Char} (h : l.length < 5) :
    parseControlCode l = none := by
  cases hp : parseControlCode l with
  | none => rfl
  | some d =>
    obtain ⟨-, ht⟩ := parse_some_take5 hp
    have hlen := congrArg List.length ht
    rw [List.length_take, dirChars_length] at hlen
    omega

theorem parse_some_shape {c : Char} {rest : List Char} {code : Nat}
    (h : parseControlCode (c :: rest) = some code) :
    c = '^' ∧ ∃ r4, rest = 'C' :: 's' :: Char.ofNat (48 + code) :: ';' :: r4 := by
  obtain ⟨hd, ht⟩ := parse_some_take5 h
  rw [show dirChars code =
    '^' :: 'C' :: 's' :: Char.ofNat (48 + code) :: ';' :: [] from rfl] at ht
  obtain ⟨l0, hl0, ht0⟩ := take_succ_eq_cons ht
  injection hl0 with hc hrest
  subst hc
  obtain ⟨l1, hl1, ht1⟩ := take_succ_eq_cons ht0
  obtain ⟨l2, hl2, ht2⟩ := take_succ_eq_cons ht1
  obtain ⟨l3, hl3, ht3⟩ := take_succ_eq_cons ht2
  obtain ⟨l4, hl4, -⟩ := take_succ_eq_cons ht3
  refine ⟨rfl, l4, ?_⟩
  rw [hrest, hl1, hl2, hl3, hl4]

/-! ### Unfolding lemmas for the scanners -/

theorem toks_cons_some {c : Char} {rest : List Char} {code : Nat}
    (h : parseControlCode (c :: rest) = some code) :
    toks (c :: rest) = .dir code :: toks (rest.drop 4) := by
  obtain ⟨rfl, r4, rfl⟩ := parse_some_shape h
  rw [toks.eq_def]
  simp only [h]
  rfl

theorem toks_cons_none {c : Char} {rest : List Char}
    (h : parseControlCode (c :: rest) = none) :
    toks (c :: rest) = .lit c :: toks rest := by
  rcases rest with _ | ⟨r1, _ | ⟨r2, _ | ⟨r3, _ | ⟨r4, rest'⟩⟩⟩⟩
  · rfl
  · rfl
  · rfl
  · rfl
  · rw [toks.eq_def]
    simp only [h]

theorem toks_nil : toks [] = [] := rfl

theorem countVisibleChars_cons_some {c : Char} {rest : List Char}
    {code : Nat} (h : parseControlCode (c :: rest) = some code) :
    countVisibleChars (c :: rest) = countVisibleChars (rest.drop 4) := by
  obtain ⟨rfl, r4, rfl⟩ := parse_some_shape h
  rw [countVisibleChars.eq_def]
  simp only [h, Option.isSome_some, if_true]
  rfl

theorem countVisibleChars_cons_none {c : Char} {rest : List Char}
    (h : parseControlCode (c :: rest) = none) :
    countVisibleChars (c :: rest) = 1 + countVisibleChars rest := by
  rcases rest with _ | ⟨r1, _ | ⟨r2, _ | ⟨r3, _ | ⟨r4, rest'⟩⟩⟩⟩
  · rfl
  · rfl
  · rfl
  · rfl
  · rw [countVisibleChars.eq_def]
    simp only [h, Option.isSome_none, Bool.false_eq_true, if_false]

theorem rebuildGo_cons_some {size : Nat} {active : Bool} {c : Char}
    {rest : List Char} {code : Nat}
    (h : parseControlCode (c :: rest) = some code) :
    rebuildGo size active (c :: rest) =
      (c :: rest).take 5 ++ rebuildGo size (code == size) (rest.drop 4) := by
  obtain ⟨rfl, r4, rfl⟩ := parse_some_shape h
  rw [rebuildGo.eq_def]
  simp only [h]
  rfl

theorem rebuildGo_cons_none {size : Nat} {active : Bool} {c : Char}
    {rest : List Char} (h : parseControlCode (c :: rest) = none) :
    rebuildGo size active (c :: rest) =
      (if active then c else ' ') :: rebuildGo size active rest := by
  rcases rest with _ | ⟨r1, _ | ⟨r2, _ | ⟨r3, _ | ⟨r4, rest'⟩⟩⟩⟩
  · rfl
  · rfl
  · rfl
  · rfl
  · rw [rebuildGo.eq_def]
    simp only [h]

theorem preAnalyzeGo_cons_some {glyphPos : Nat} {c : Char}
    {rest : List Char} {code : Nat}
    (h : parseControlCode (c :: rest) = some code) :
    preAnalyzeGo glyphPos (c :: rest) =
      (⟨glyphPos, code⟩ :: (preAnalyzeGo glyphPos (rest.drop 4)).1,
        (preAnalyzeGo glyphPos (rest.drop 4)).2) := by
  obtain ⟨rfl, r4, rfl⟩ := parse_some_shape h
  rw [preAnalyzeGo.eq_def]
  simp only [h]
  rfl

theorem preAnalyzeGo_cons_none {glyphPos : Nat} {c : Char}
    {rest : List Char} (h : parseControlCode (c :: rest) = none) :
    preAnalyzeGo glyphPos (c :: rest) = preAnalyzeGo (glyphPos + 1) rest := by
  rcases rest with _ | ⟨r1, _ | ⟨r2, _ | ⟨r3, _ | ⟨r4, rest'⟩⟩⟩⟩
  · rfl
  · rfl
  · rfl
  · rfl
  · rw [preAnalyzeGo.eq_def]
    simp only [h]

/-- The induction scheme of the scanners of `main.go`: a message is
consumed either five characters at a time (a recognized control code)
or one character at a time. -/
theorem scan_induction {P : List Char → Prop} (h1 : P [])
    (h2 : ∀ c rest code, parseControlCode (c :: rest) = some code →
      P (rest.drop 4) → P (c :: rest))
    (h3 : ∀ c rest, parseControlCode (c :: rest) = none → P rest → P (c :: rest)) :
    ∀ l, P l := by
  intro l
  induction l using toks.induct with
  | case1 => exact h1
  | case2 c r1 r2 r3 r4 rest code h ih => exact h2 c _ code h ih
  | case3 c r1 r2 r3 r4 rest h ih => exact h3 c _ h ih
  | case4 head rest hns ih =>
    have hlen : (head :: rest).length < 5 := by
      rcases rest with _ | ⟨a, _ | ⟨b, _ | ⟨e, _ | ⟨d, t⟩⟩⟩⟩
      · simp
      · simp
      · simp
      · simp
      · exact absurd rfl (hns a b e d t)
    exact h3 head rest (parse_short_none hlen) ih

/-! ### The scanners are folds over the token view -/

theorem untoks_toks (l : List Char) : untoks (toks l) = l := by
  induction l using scan_induction with
  | h1 => rw [toks_nil]; rfl
  | h2 c rest code h ih =>
    obtain ⟨hd, ht⟩ := parse_some_take5 h
    rw [toks_cons_some h, untoks, ih]
    have h2 : (c :: rest).take 5 ++ (c :: rest).drop 5 = c :: rest :=
      List.take_append_drop _ _
    rw [ht] at h2
    exact h2
  | h3 c rest h ih =>
    rw [toks_cons_none h, untoks, ih]

theorem countVisibleChars_eq_toks (l : List Char) :
    countVisibleChars l = (litChars (toks l)).length := by
  induction l using scan_induction with
  | h1 => rfl
  | h2 c rest code h ih =>
    rw [countVisibleChars_cons_some h, toks_cons_some h, litChars, ih]
  | h3 c rest h ih =>
    rw [countVisibleChars_cons_none h, toks_cons_none h, litChars, ih]
    simp [Nat.add_comm]

theorem rebuildGo_eq_toks (size : Nat) (active : Bool) (l : List Char) :
    rebuildGo size active l = untoks (maskToks size active (toks l)) := by
  induction l using scan_induction generalizing active with
  | h1 => rfl
  | h2 c rest code h ih =>
    obtain ⟨hd, ht⟩ := parse_some_take5 h
    rw [rebuildGo_cons_some h, toks_cons_some h, maskToks, untoks, ih, ht]
  | h3 c rest h ih =>
    rw [rebuildGo_cons_none h, toks_cons_none h, maskToks, untoks, ih]

theorem preAnalyzeGo_eq_toks (glyphPos : Nat) (l : List Char) :
    preAnalyzeGo glyphPos l =
      (idxToks glyphPos (toks l), glyphPos + (litChars (toks l)).length) := by
  induction l using scan_induction generalizing glyphPos with
  | h1 => rfl
  | h2 c rest code h ih =>
    rw [preAnalyzeGo_cons_some h, toks_cons_some h, idxToks, litChars, ih]
  | h3 c rest h ih =>
    rw [preAnalyzeGo_cons_none h, toks_cons_none h, idxToks, litChars, ih]
    simp only [List.length_cons, Prod.mk.injEq]
    exact ⟨trivial, by omega⟩

theorem toks_dirChars_append {code : Nat} (hd : code < 4) (u : List Char) :
    toks (dirChars code ++ u) = .dir code :: toks u := by
  have hp : parseControlCode
      ('^' :: 'C' :: 's' :: Char.ofNat (48 + code) :: ';' :: u) = some code :=
    parse_dirChars_append hd u
  show toks ('^' :: 'C' :: 's' :: Char.ofNat (48 + code) :: ';' :: u) = _
  rw [toks_cons_some hp]
  rfl

/-! ### Well-formed token lists -/

theorem toks_eq_lit {r : List Char} {x : Char} {ts : List Tok}
    (h : toks r = .lit x :: ts) :
    ∃ r', r = x :: r' ∧ ts = toks r' ∧ parseControlCode (x :: r') = none := by
  cases r with
  | nil => rw [toks_nil] at h; cases h
  | cons c rest =>
    cases hp : parseControlCode (c :: rest) with
    | some code =>
      rw [toks_cons_some hp] at h
      injection h with h1 h2
      cases h1
    | none =>
      rw [toks_cons_none hp] at h
      injection h with h1 h2
      injection h1 with h1
      subst h1
      exact ⟨rest, rfl, h2.symm, hp⟩

theorem litRun5_eq_true {c : Char} {ts : List Tok} (h : litRun5 c ts = true) :
    c = '^' ∧ ∃ c2 ts', ts = .lit 'C' :: .lit 's' :: .lit c2 :: .lit ';' :: ts' ∧
      ((c2 = '0' ∨ c2 = '1') ∨ (c2 = '2' ∨ c2 = '3')) := by
  rw [litRun5.eq_def] at h
  split at h
  · next c2 ts' =>
    refine ⟨rfl, c2, ts', rfl, ?_⟩
    simp only [Bool.or_eq_true, beq_iff_eq] at h
    tauto
  · cases h

theorem litRun5_digit {c2 : Char} {ts' : List Tok}
    (hdig : (c2 = '0' ∨ c2 = '1') ∨ (c2 = '2' ∨ c2 = '3')) :
    litRun5 '^' (.lit 'C' :: .lit 's' :: .lit c2 :: .lit ';' :: ts') = true := by
  show ((c2 == '0') || (c2 == '1') || (c2 == '2') || (c2 == '3')) = true
  rcases hdig with (rfl | rfl) | (rfl | rfl) <;> rfl

theorem goodToks_toks (l : List Char) : goodToks (toks l) = true := by
  induction l using scan_induction with
  | h1 => rw [toks_nil]; rfl
  | h2 c rest code h ih =>
    obtain ⟨hd, _⟩ := parse_some_take5 h
    rw [toks_cons_some h, goodToks]
    simp [hd, ih]
  | h3 c rest h ih =>
    rw [toks_cons_none h, goodToks, ih, Bool.and_true]
    cases hr : litRun5 c (toks rest)
    · rfl
    · exfalso
      obtain ⟨rfl, c2, ts', hts, hdig⟩ := litRun5_eq_true hr
      obtain ⟨r1, rfl, ht1, -⟩ := toks_eq_lit hts
      obtain ⟨r2, rfl, ht2, -⟩ := toks_eq_lit ht1.symm
      obtain ⟨r3, rfl, ht3, -⟩ := toks_eq_lit ht2.symm
      obtain ⟨r4, rfl, -, -⟩ := toks_eq_lit ht3.symm
      have hp : parseControlCode ('^' :: 'C' :: 's' :: c2 :: ';' :: r4) ≠ none := by
        have hsome : ∃ d, parseControlCode ('^' :: 'C' :: 's' :: c2 :: ';' :: r4) = some d := by
          rcases hdig with (rfl | rfl) | (rfl | rfl)
          · exact ⟨0, parse_of_take5 (by norm_num) rfl⟩
          · exact ⟨1, parse_of_take5 (by norm_num) rfl⟩
          · exact ⟨2, parse_of_take5 (by norm_num) rfl⟩
          · exact ⟨3, parse_of_take5 (by norm_num) rfl⟩
        obtain ⟨d, hd⟩ := hsome
        rw [hd]
        exact Option.noConfusion
      exact hp h

theorem maskToks_eq_lit {size : Nat} {a : Bool} {ts : List Tok} {x : Char}
    {ms : List Tok} (h : maskToks size a ts = .lit x :: ms) :
    ∃ c0 ts0, ts = .lit c0 :: ts0 ∧ x = (if a then c0 else ' ') ∧
      ms = maskToks size a ts0 := by
  cases ts with
  | nil => cases h
  | cons t ts0 =>
    cases t with
    | dir code =>
      rw [maskToks] at h
      injection h with h1 h2
      cases h1
    | lit c0 =>
      rw [maskToks] at h
      injection h with h1 h2
      injection h1 with h1
      exact ⟨c0, ts0, rfl, h1.symm, h2.symm⟩

theorem goodToks_maskToks (size : Nat) (a : Bool) (ts : List Tok)
    (h : goodToks ts = true) : goodToks (maskToks size a ts) = true := by
  induction ts generalizing a with
  | nil => rfl
  | cons t ts ih =>
    cases t with
    | dir code =>
      rw [goodToks] at h
      rw [Bool.and_eq_true] at h
      rw [maskToks, goodToks, h.1, ih _ h.2]
      rfl
    | lit c =>
      rw [goodToks] at h
      rw [Bool.and_eq_true] at h
      rw [maskToks, goodToks, ih _ h.2, Bool.and_true]
      cases hr : litRun5 (if a then c else ' ') (maskToks size a ts)
      · rfl
      · exfalso
        obtain ⟨hhat, c2, ts', hts, hdig⟩ := litRun5_eq_true hr
        cases ha : a with
        | false =>
          rw [ha, if_neg (by decide)] at hhat
          exact absurd hhat (by decide)
        | true =>
          rw [ha] at hhat hts
          rw [if_pos rfl] at hhat
          obtain ⟨d1, ts1, rfl, hd1, hm1⟩ := maskToks_eq_lit hts
          rw [if_pos rfl] at hd1
          obtain ⟨d2, ts2, rfl, hd2, hm2⟩ := maskToks_eq_lit hm1.symm
          rw [if_pos rfl] at hd2
          obtain ⟨d3, ts3, rfl, hd3, hm3⟩ := maskToks_eq_lit hm2.symm
          rw [if_pos rfl] at hd3
          obtain ⟨d4, ts4, rfl, hd4, -⟩ := maskToks_eq_lit hm3.symm
          rw [if_pos rfl] at hd4
          subst hd1; subst hd2; subst hd3; subst hd4
          have hrun : litRun5 c (.lit 'C' :: .lit 's' :: .lit c2 :: .lit ';' :: ts4) = true := by
            rw [hhat]
            exact litRun5_digit hdig
          rw [hrun] at h
          exact absurd h.1 (by decide)

theorem untoks_head_lit {ts : List Tok} {x : Char} {u : List Char}
    (hx : x ≠ '^') (h : untoks ts = x :: u) :
    ∃ ts', ts = .lit x :: ts' ∧ u = untoks ts' := by
  cases ts with
  | nil => cases h
  | cons t ts' =>
    cases t with
    | dir code =>
      rw [show untoks (.dir code :: ts') =
        '^' :: ('C' :: 's' :: Char.ofNat (48 + code) :: ';' :: untoks ts')
        from rfl] at h
      injection h with h1 h2
      exact absurd h1.symm hx
    | lit c0 =>
      rw [untoks] at h
      injection h with h1 h2
      subst h1
      exact ⟨ts', rfl, h2.symm⟩

theorem toks_untoks {ts : List Tok} (h : goodToks ts = true) :
    toks (untoks ts) = ts := by
  induction ts with
  | nil => rw [show untoks [] = [] from rfl, toks_nil]
  | cons t ts ih =>
    cases t with
    | dir code =>
      rw [goodToks, Bool.and_eq_true] at h
      have hd : code < 4 := of_decide_eq_true h.1
      rw [untoks, toks_dirChars_append hd, ih h.2]
    | lit c =>
      rw [goodToks, Bool.and_eq_true] at h
      rw [untoks]
      cases hp : parseControlCode (c :: untoks ts) with
      | none => rw [toks_cons_none hp, ih h.2]
      | some d =>
        exfalso
        obtain ⟨hd, ht⟩ := parse_some_take5 hp
        rw [show (c :: untoks ts).take 5 = c :: (untoks ts).take 4 from
          List.take_succ_cons .., show dirChars d =
          '^' :: 'C' :: 's' :: Char.ofNat (48 + d) :: ';' :: [] from rfl] at ht
        injection ht with hc ht
        subst hc
        obtain ⟨u1, hu1, ht⟩ := take_succ_eq_cons ht
        obtain ⟨ts1, rfl, hu1'⟩ := untoks_head_lit (by decide) hu1
        subst hu1'
        obtain ⟨u2, hu2, ht⟩ := take_succ_eq_cons ht
        obtain ⟨ts2, rfl, hu2'⟩ := untoks_head_lit (by decide) hu2
        subst hu2'
        obtain ⟨u3, hu3, ht⟩ := take_succ_eq_cons ht
        have hdigne : Char.ofNat (48 + d) ≠ '^' := by
          interval_cases d <;> decide
        obtain ⟨ts3, rfl, hu3'⟩ := untoks_head_lit hdigne hu3
        subst hu3'
        obtain ⟨u4, hu4, ht⟩ := take_succ_eq_cons ht
        obtain ⟨ts4, rfl, hu4'⟩ := untoks_head_lit (by decide) hu4
        have hrun : litRun5 '^'
            (.lit 'C' :: .lit 's' :: .lit (Char.ofNat (48 + d)) :: .lit ';' :: ts4) = true := by
          apply litRun5_digit
          interval_cases d
          · exact Or.inl (Or.inl (by decide))
          · exact Or.inl (Or.inr (by decide))
          · exact Or.inr (Or.inl (by decide))
          · exact Or.inr (Or.inr (by decide))
        rw [hrun] at h
        exact absurd h.1 (by decide)

/-! ### Masking, glyph streams and the Font-Change Index -/

theorem litChars_maskToks (size : Nat) (ts : List Tok) :
    ∀ cur : Nat, litChars (maskToks size (cur == size) ts) =
      List.zipWith (fun t c => if t = size then c else ' ')
        (tiersToks cur ts) (litChars ts) := by
  induction ts with
  | nil => intro cur; rfl
  | cons t ts ih =>
    intro cur
    cases t with
    | dir code =>
      rw [maskToks, litChars, litChars, tiersToks, ih code]
    | lit c =>
      rw [maskToks, litChars, litChars, tiersToks, List.zipWith_cons_cons,
        ih cur]
      by_cases hc : cur = size
      · simp [hc]
      · simp [hc]

theorem tiersToks_length (cur : Nat) (ts : List Tok) :
    (tiersToks cur ts).length = (litChars ts).length := by
  induction ts generalizing cur with
  | nil => rfl
  | cons t ts ih =>
    cases t with
    | dir code => rw [tiersToks, litChars, ih]
    | lit c => rw [tiersToks, litChars, List.length_cons, List.length_cons, ih]

theorem litChars_maskToks_length (size : Nat) (a : Bool) (ts : List Tok) :
    (litChars (maskToks size a ts)).length = (litChars ts).length := by
  induction ts generalizing a with
  | nil => rfl
  | cons t ts ih =>
    cases t with
    | dir code => rw [maskToks, litChars, litChars, ih]
    | lit c =>
      rw [maskToks, litChars, litChars, List.length_cons, List.length_cons, ih]

theorem litBytePos_maskToks (size : Nat) (a : Bool) (ts : List Tok) :
    ∀ p, litBytePos (maskToks size a ts) p = litBytePos ts p := by
  induction ts generalizing a with
  | nil => intro p; rfl
  | cons t ts ih =>
    intro p
    cases t with
    | dir code => rw [maskToks, litBytePos, litBytePos, ih]
    | lit c =>
      cases p with
      | zero => rfl
      | succ p => rw [maskToks, litBytePos, litBytePos, ih]

theorem untoks_getD_litBytePos (ts : List Tok) :
    ∀ p, p < (litChars ts).length →
      (untoks ts).getD (litBytePos ts p) ' ' = (litChars ts).getD p ' ' := by
  induction ts with
  | nil => intro p hp; cases hp
  | cons t ts ih =>
    intro p hp
    cases t with
    | dir code =>
      rw [litChars] at hp
      rw [untoks, litBytePos, litChars]
      rw [List.getD_append_right]
      · rw [show 5 + litBytePos ts p - (dirChars code).length = litBytePos ts p
          from by rw [dirChars_length]; omega]
        exact ih p hp
      · rw [dirChars_length]; omega
    | lit c =>
      cases p with
      | zero => rfl
      | succ p =>
        rw [litChars, List.length_cons] at hp
        rw [untoks, litBytePos, litChars]
        rw [show (1 + litBytePos ts p) = litBytePos ts p + 1 from by omega]
        rw [List.getD_cons_succ, List.getD_cons_succ]
        exact ih p (by omega)

theorem idxToks_position_ge {g0 : Nat} {ts : List Tok} :
    ∀ fc ∈ idxToks g0 ts, g0 ≤ fc.position := by
  induction ts generalizing g0 with
  | nil => intro fc hfc; cases hfc
  | cons t ts ih =>
    intro fc hfc
    cases t with
    | dir code =>
      rw [idxToks] at hfc
      rcases List.mem_cons.mp hfc with rfl | hfc
      · exact le_refl _
      · exact ih fc hfc
    | lit c =>
      rw [idxToks] at hfc
      exact le_trans (Nat.le_succ _) (ih fc hfc)

theorem lookupSize_of_all_gt {changes : List FontChange} {glyphPos : ℤ}
    (h : ∀ fc ∈ changes, glyphPos < (fc.position : ℤ)) (acc : Nat) :
    lookupSize changes glyphPos acc = acc := by
  cases changes with
  | nil => rfl
  | cons fc rest =>
    rw [lookupSize, if_neg (not_le.mpr (h fc (List.mem_cons_self _ _)))]

theorem tiersToks_lookupSize (ts : List Tok) :
    ∀ (g0 cur p : Nat), p < (litChars ts).length →
      (tiersToks cur ts).getD p 0 =
        lookupSize (idxToks g0 ts) ((g0 + p : Nat) : ℤ) cur := by
  induction ts with
  | nil => intro g0 cur p hp; cases hp
  | cons t ts ih =>
    intro g0 cur p hp
    cases t with
    | dir code =>
      rw [litChars] at hp
      rw [tiersToks, idxToks, lookupSize,
        if_pos (by exact_mod_cast Nat.le_add_right g0 p)]
      exact ih g0 code p hp
    | lit c =>
      rw [litChars, List.length_cons] at hp
      cases p with
      | zero =>
        rw [tiersToks, idxToks, List.getD_cons_zero]
        rw [lookupSize_of_all_gt]
        intro fc hfc
        have := idxToks_position_ge fc hfc
        push_cast
        omega
      | succ p =>
        rw [tiersToks, idxToks, List.getD_cons_succ]
        rw [show ((g0 + (p + 1) : Nat) : ℤ) = ((g0 + 1 + p : Nat) : ℤ) from by
          push_cast; ring]
        exact ih (g0 + 1) cur p (by omega)

theorem idxToks_newSize_lt {g0 : Nat} {ts : List Tok}
    (hg : goodToks ts = true) :
    ∀ fc ∈ idxToks g0 ts, fc.newSize < 4 := by
  induction ts generalizing g0 with
  | nil => intro fc hfc; cases hfc
  | cons t ts ih =>
    intro fc hfc
    cases t with
    | dir code =>
      rw [goodToks, Bool.and_eq_true] at hg
      rw [idxToks] at hfc
      rcases List.mem_cons.mp hfc with rfl | hfc
      · exact of_decide_eq_true hg.1
      · exact ih hg.2 fc hfc
    | lit c =>
      rw [goodToks, Bool.and_eq_true] at hg
      rw [idxToks] at hfc
      exact ih hg.2 fc hfc

theorem lookupSize_lt_four {changes : List FontChange} {glyphPos : ℤ}
    (h : ∀ fc ∈ changes, fc.newSize < 4) :
    ∀ acc, acc < 4 → lookupSize changes glyphPos acc < 4 := by
  induction changes with
  | nil => intro acc hacc; exact hacc
  | cons fc rest ih =>
    intro acc hacc
    rw [lookupSize]
    split_ifs with hle
    · exact ih (fun b hb => h b (List.mem_cons_of_mem _ hb)) _
        (h fc (List.mem_cons_self _ _))
    · exact hacc

theorem idxToks_pairwise (g0 : Nat) (ts : List Tok) :
    (idxToks g0 ts).Pairwise (fun a b => a.position ≤ b.position) := by
  induction ts generalizing g0 with
  | nil => exact List.Pairwise.nil
  | cons t ts ih =>
    cases t with
    | dir code =>
      rw [idxToks]
      exact List.Pairwise.cons (fun b hb => idxToks_position_ge b hb) (ih g0)
    | lit c =>
      rw [idxToks]
      exact ih (g0 + 1)

theorem lookupSize_eq_getLast {changes : List FontChange} (glyphPos : ℤ)
    (hs : changes.Pairwise (fun a b => a.position ≤ b.position)) :
    ∀ acc, lookupSize changes glyphPos acc =
      (((changes.filter fun c => decide ((c.position : ℤ) ≤ glyphPos)).getLast?).map
        FontChange.newSize).getD acc := by
  induction changes with
  | nil => intro acc; rfl
  | cons fc rest ih =>
    intro acc
    rw [List.pairwise_cons] at hs
    rw [lookupSize]
    split_ifs with hle
    · rw [ih hs.2, List.filter_cons_of_pos (by simpa using hle)]
      cases hfl : rest.filter fun c => decide ((c.position : ℤ) ≤ glyphPos) with
      | nil => simp
      | cons b bs =>
        rw [List.getLast?_cons_cons]
        have hsome : (b :: bs).getLast?.isSome := by
          rw [List.getLast?_isSome]
          exact List.cons_ne_nil _ _
        obtain ⟨x, hx⟩ := Option.isSome_iff_exists.mp hsome
        rw [hx]
        rfl
    · have hfil : (fc :: rest).filter
          (fun c => decide ((c.position : ℤ) ≤ glyphPos)) = [] := by
        rw [List.filter_eq_nil_iff]
        intro b hb
        rcases List.mem_cons.mp hb with rfl | hb
        · simpa using hle
        · have hpos := hs.1 b hb
          simp only [decide_eq_true_eq]
          intro hc
          exact hle (le_trans (by exact_mod_cast hpos) hc)
      rw [hfil]
      rfl

theorem lookupLast_eq_lookupSize {changes : List FontChange} (glyphPos : ℤ)
    (hs : changes.Pairwise (fun a b => a.position ≤ b.position)) :
    lookupLast changes glyphPos = lookupSize changes glyphPos 0 := by
  rw [lookupSize_eq_getLast glyphPos hs 0, lookupLast]
  cases (changes.filter fun c => decide ((c.position : ℤ) ≤ glyphPos)).getLast? with
  | none => rfl
  | some c => rfl

/-! ### The advance operation -/

theorem draw_offset (st : ScrollText) :
    st.draw = { st with
      offset := drawStep st.totalWidth (st.canvasW : ℚ) st.speed st.offset } := by
  by_cases h0 : st.visibleChars = 0
  · simp [ScrollText.draw, drawStep, ScrollText.totalWidth, h0]
  · simp only [ScrollText.draw, drawStep, ScrollText.totalWidth, h0, if_false]
    split_ifs <;> rfl

theorem draw_iterate_offset (st : ScrollText) (n : Nat) :
    (ScrollText.draw)^[n] st = { st with
      offset :=
        (drawStep st.totalWidth (st.canvasW : ℚ) st.speed)^[n] st.offset } := by
  induction n with
  | zero => rfl
  | succ n ih =>
    rw [Function.iterate_succ_apply', ih, draw_offset,
      Function.iterate_succ_apply']
    rfl

/-! ### The Speed Table and the tick -/

theorem setSpeed_offsets (g : GameState) :
    g.setSpeed.scrollText1.offset = g.scrollText1.offset ∧
    g.setSpeed.scrollText2.offset = g.scrollText2.offset ∧
    g.setSpeed.scrollText3.offset = g.scrollText3.offset ∧
    g.setSpeed.scrollText4.offset = g.scrollText4.offset := by
  unfold GameState.setSpeed
  split <;> exact ⟨rfl, rfl, rfl, rfl⟩

theorem updateActSize_cases (g : GameState) :
    (∃ sz, g.updateActSizeFromScroll = GameState.setSpeed { g with actSize := sz }) ∨
      g.updateActSizeFromScroll = g := by
  simp only [GameState.updateActSizeFromScroll]
  split_ifs <;> first | (left; exact ⟨_, rfl⟩) | (right; rfl)

theorem updateActSize_offsets (g : GameState) :
    g.updateActSizeFromScroll.scrollText1.offset = g.scrollText1.offset ∧
    g.updateActSizeFromScroll.scrollText2.offset = g.scrollText2.offset ∧
    g.updateActSizeFromScroll.scrollText3.offset = g.scrollText3.offset ∧
    g.updateActSizeFromScroll.scrollText4.offset = g.scrollText4.offset := by
  rcases updateActSize_cases g with ⟨sz, hg⟩ | hg <;> rw [hg]
  · exact setSpeed_offsets _
  · exact ⟨rfl, rfl, rfl, rfl⟩

theorem spincUp_ne_zero {sp : ℚ} (h : sp ≠ 0) : spincUp sp ≠ 0 := by
  unfold spincUp
  split_ifs with h1 h2 h3
  · intro hc; linarith [h1.2]
  · norm_num
  · norm_num
  · exact h

theorem spincDown_ne_zero {sp : ℚ} (h : sp ≠ 0) : spincDown sp ≠ 0 := by
  unfold spincDown
  split_ifs with h1 h2 h3
  · intro hc; linarith
  · norm_num
  · norm_num
  · exact h

/-! ### Linear phase and period of the advance step -/

theorem drawStep_no_wrap {T C s : ℚ} (hs : 0 ≤ s) (o : ℚ) :
    ∀ n : Nat, -T < o - n * s → (drawStep T C s)^[n] o = o - n * s := by
  intro n
  induction n with
  | zero => intro h0; simp
  | succ n ih =>
    intro hn
    have hstep : o - (n : ℚ) * s ≥ o - ((n : ℚ) + 1) * s := by nlinarith
    have hn' : -T < o - n * s := by push_cast at hn ⊢; linarith
    rw [Function.iterate_succ_apply', ih hn']
    unfold drawStep
    rw [if_neg]
    · push_cast; ring
    · rintro ⟨-, hw⟩
      push_cast at hn
      linarith

theorem drawStep_invariant {T C s : ℚ} (hT : 0 < T) (hs : 0 < s) (hsW : s ≤ T + C) {o : ℚ} (ho1 : -T < o) (ho2 : o ≤ C) :
    ∀ n : Nat, ∃ m : Nat,
      (drawStep T C s)^[n] o = o - n * s + m * (T + C) ∧
      -T < (drawStep T C s)^[n] o ∧ (drawStep T C s)^[n] o ≤ C := by
  intro n
  induction n with
  | zero => exact ⟨0, by simp, ho1, ho2⟩
  | succ n ih =>
    obtain ⟨m, heq, hlb, hub⟩ := ih
    rw [Function.iterate_succ_apply']
    set x := (drawStep T C s)^[n] o with hx
    unfold drawStep
    split_ifs with hw
    · refine ⟨m + 1, ?_, ?_, ?_⟩
      · rw [heq]; push_cast; ring
      · linarith
      · linarith [hw.2]
    · rw [not_and_or] at hw
      rcases hw with hw | hw
      · exact absurd hT hw
      · rw [not_le] at hw
        refine ⟨m, ?_, ?_, ?_⟩
        · rw [heq]; push_cast; ring
        · linarith
        · linarith

theorem drawStep_period {T C s : ℚ} (hT : 0 < T) (hC : 0 ≤ C) (hs : 0 < s)
    {N : Nat} (hN : (N : ℚ) * s = T + C) {o : ℚ} (ho1 : -T < o)
    (ho2 : o ≤ C) : (drawStep T C s)^[N] o = o := by
  have hW : 0 < T + C := by linarith
  have hN1 : 1 ≤ N := by
    by_contra hc
    push_neg at hc
    interval_cases N
    rw [Nat.cast_zero, zero_mul] at hN
    linarith
  have hsW : s ≤ T + C := by
    rw [← hN]
    have : (1 : ℚ) ≤ (N : ℚ) := by exact_mod_cast hN1
    nlinarith
  obtain ⟨m, heq, hlb, hub⟩ :=
    drawStep_invariant hT hs hsW ho1 ho2 N
  rw [hN] at heq
  have hm1 : ((m : ℚ) - 1) * (T + C) = (drawStep T C s)^[N] o - o := by
    rw [heq]; ring
  have hmlt : (m : ℚ) < 2 := by
    have h2 : ((m : ℚ) - 1) * (T + C) < 1 * (T + C) := by
      rw [hm1]; linarith
    have := (mul_lt_mul_right hW).mp h2
    linarith
  have hmgt : (0 : ℚ) < m := by
    have h2 : (-1 : ℚ) * (T + C) < ((m : ℚ) - 1) * (T + C) := by
      rw [hm1]; linarith
    have := (mul_lt_mul_right hW).mp h2
    linarith
  have hm : m = 1 := by
    have l1 : m < 2 := by exact_mod_cast hmlt
    have l2 : 0 < m := by exact_mod_cast hmgt
    omega
  rw [hm] at heq
  rw [heq]
  push_cast
  ring

/-! ### Claims -/

/-- Claim C9 (confirmed): `parseControlCode` recognizes a tier id `k`
exactly when the complete five-character directive token — sentinel
`'^'`, tag `'C'` `'s'`, one tier digit `k ∈ {0,1,2,3}`, terminator
`';'`, i.e. `dirChars k` — begins at the queried position (the head of
the remaining text `l`); in every other case — non-sentinel head,
malformed content after the sentinel, or a token truncated by the end
of the string, all summarized by `take 5 ≠ dirChars k` for every
`k < 4` — it fails, and the caller (here `countVisibleChars`) consumes
the character at that position as ordinary literal text: fail-open,
never an error. -/
theorem C9_parse_fail_open :
    (∀ (l : List Char) (k : Nat),
      parseControlCode l = some k ↔ k < 4 ∧ l.take 5 = dirChars k) ∧
    (∀ l : List Char,
      parseControlCode l = none ↔ ∀ k, k < 4 → l.take 5 ≠ dirChars k) ∧
    (∀ (c : Char) (rest : List Char), parseControlCode (c :: rest) = none →
      countVisibleChars (c :: rest) = 1 + countVisibleChars rest) := by
  refine ⟨fun l k => ⟨parse_some_take5, fun ⟨hk, ht⟩ => parse_of_take5 hk ht⟩,
    fun l => ⟨?_, ?_⟩, fun c rest h => countVisibleChars_cons_none h⟩
  · intro h k hk ht
    rw [parse_of_take5 hk ht] at h
    cases h
  · intro h
    cases hp : parseControlCode l with
    | none => rfl
    | some d =>
      obtain ⟨hd, ht⟩ := parse_some_take5 hp
      exact absurd ht (h d hd)

/-- Witness for C9: a complete token is recognized, a malformed token
(`"^CsX;"`) and a truncated token (`"^Cs1"`) are not, and the malformed
sentinel is consumed as one literal character. -/
theorem C9_parse_fail_open_witness :
    parseControlCode ('^' :: 'C' :: 's' :: '2' :: ';' :: 'X' :: []) = some 2 ∧
    parseControlCode ('^' :: 'C' :: 's' :: 'X' :: ';' :: []) = none ∧
    parseControlCode ('^' :: 'C' :: 's' :: '1' :: []) = none ∧
    countVisibleChars ('^' :: 'C' :: 's' :: 'X' :: ';' :: []) =
      1 + countVisibleChars ('C' :: 's' :: 'X' :: ';' :: []) := by
  refine ⟨(C9_parse_fail_open.1 _ 2).mpr ⟨by norm_num, rfl⟩,
    (C9_parse_fail_open.2.1 _).mpr ?_, (C9_parse_fail_open.2.1 _).mpr ?_,
    C9_parse_fail_open.2.2 '^' _ ?_⟩
  · intro k hk
    interval_cases k <;> decide
  · intro k hk
    interval_cases k <;> decide
  · decide

theorem scenarioTier_facts :
    scenarioTier.visibleChars = 10 ∧ scenarioTier.totalWidth = 400 ∧
    scenarioTier.offset = 640 ∧ scenarioTier.speed = 8 ∧
    scenarioTier.canvasW = 640 := by
  have hv : scenarioTier.visibleChars = 10 := by decide
  have ht : scenarioTier.tileW = 40 := rfl
  have hsx : scenarioTier.scaleX = 1 := rfl
  have hoff : scenarioTier.offset = ((640 : Nat) : ℚ) := rfl
  refine ⟨hv, ?_, ?_, rfl, rfl⟩
  · rw [ScrollText.totalWidth, hv, ht, hsx]
    norm_num
  · rw [hoff]
    norm_num

/-- Claim C3 (confirmed): `ScrollText.draw` first subtracts the speed
from the offset; with zero visible glyphs nothing further happens;
otherwise, with `totalWidth = visibleChars × tileW × scaleX`, when
`totalWidth > 0` and the new offset is `≤ −totalWidth` it wraps by
adding `totalWidth + canvasWidth`.  Concretely, the tier with
`tileW = 40`, `scaleX = 1`, 10 visible glyphs and canvas width 640
(`totalWidth = 400`), starting at offset 640 with speed 8, returns to
exactly offset 640 after 130 advances. -/
theorem C3_draw_advance :
    (∀ st : ScrollText, st.visibleChars = 0 →
      st.draw = { st with offset := st.offset - st.speed }) ∧
    (∀ st : ScrollText, st.visibleChars ≠ 0 →
      (0 < st.totalWidth ∧ st.offset - st.speed ≤ -st.totalWidth →
        st.draw = { st with offset :=
          st.offset - st.speed + st.totalWidth + (st.canvasW : ℚ) }) ∧
      (¬(0 < st.totalWidth ∧ st.offset - st.speed ≤ -st.totalWidth) →
        st.draw = { st with offset := st.offset - st.speed })) ∧
    scenarioTier.totalWidth = 400 ∧ scenarioTier.offset = 640 ∧
    ((ScrollText.draw)^[130] scenarioTier).offset = 640 := by
  obtain ⟨hv, htw, hoff, hsp, hcw⟩ := scenarioTier_facts
  refine ⟨fun st h0 => ?_, fun st h0 => ⟨fun hw => ?_, fun hw => ?_⟩,
    htw, hoff, ?_⟩
  · rw [draw_offset]
    unfold drawStep
    rw [if_neg]
    rintro ⟨hT, -⟩
    rw [ScrollText.totalWidth, h0] at hT
    norm_num at hT
  · rw [draw_offset]
    unfold drawStep
    rw [if_pos hw]
  · rw [draw_offset]
    unfold drawStep
    rw [if_neg hw]
  · have hT : (0 : ℚ) < scenarioTier.totalWidth := by rw [htw]; norm_num
    have hC : (0 : ℚ) ≤ (scenarioTier.canvasW : ℚ) := Nat.cast_nonneg _
    have hs : (0 : ℚ) < scenarioTier.speed := by rw [hsp]; norm_num
    have hN : ((130 : Nat) : ℚ) * scenarioTier.speed =
        scenarioTier.totalWidth + (scenarioTier.canvasW : ℚ) := by
      rw [hsp, htw, hcw]
      push_cast
      norm_num
    have ho1 : -scenarioTier.totalWidth < scenarioTier.offset := by
      rw [htw, hoff]
      norm_num
    have ho2 : scenarioTier.offset ≤ (scenarioTier.canvasW : ℚ) := by
      rw [hoff, hcw]
      push_cast
      norm_num
    rw [draw_iterate_offset]
    show (drawStep scenarioTier.totalWidth (scenarioTier.canvasW : ℚ)
      scenarioTier.speed)^[130] scenarioTier.offset = 640
    rw [drawStep_period hT hC hs hN ho1 ho2]
    exact hoff

/-- Witness for C3: a zero-glyph tier only subtracts its speed, the
scenario tier at offset −392 meets the wrap condition and wraps, and
the scenario tier at its start offset does not wrap. -/
theorem C3_draw_advance_witness :
    ({ newScrollText 640 40 32 1 1 [] with speed := 8 } : ScrollText).draw =
      { ({ newScrollText 640 40 32 1 1 [] with speed := 8 } : ScrollText) with
        offset := ({ newScrollText 640 40 32 1 1 [] with
            speed := 8 } : ScrollText).offset -
          ({ newScrollText 640 40 32 1 1 [] with
            speed := 8 } : ScrollText).speed } ∧
    ({ scenarioTier with offset := -392 } : ScrollText).draw =
      { ({ scenarioTier with offset := -392 } : ScrollText) with
        offset := ({ scenarioTier with offset := -392 } : ScrollText).offset -
          ({ scenarioTier with offset := -392 } : ScrollText).speed +
          ({ scenarioTier with offset := -392 } : ScrollText).totalWidth +
          (({ scenarioTier with offset := -392 } : ScrollText).canvasW : ℚ) } ∧
    scenarioTier.draw =
      { scenarioTier with
        offset := scenarioTier.offset - scenarioTier.speed } := by
  obtain ⟨hv, htw, hoff, hsp, hcw⟩ := scenarioTier_facts
  have htw' : ({ scenarioTier with offset := -392 } : ScrollText).totalWidth
      = 400 := htw
  have hoff' : ({ scenarioTier with offset := -392 } : ScrollText).offset
      = -392 := rfl
  have hsp' : ({ scenarioTier with offset := -392 } : ScrollText).speed
      = 8 := hsp
  refine ⟨C3_draw_advance.1 _ (by decide), ?_, ?_⟩
  · exact ((C3_draw_advance.2.1 { scenarioTier with offset := -392 })
      (by decide)).1 ⟨by rw [htw']; norm_num,
        by rw [htw', hoff', hsp']; norm_num⟩
  · refine ((C3_draw_advance.2.1 scenarioTier) (by decide)).2 ?_
    rw [not_and_or]
    right
    rw [not_le]
    show -scenarioTier.totalWidth < scenarioTier.offset - scenarioTier.speed
    rw [htw, hoff, hsp]
    norm_num

/-- Claim C5 (confirmed): for every active tier in `{0,1,2,3}` and every
(nonzero) value of the speed multiplier, `setSpeed` installs the
hard-coded base-speed row selected by the active tier — 8/16/32/64,
4/8/16/32, 2/4/8/16 or 1/2/4/8 — scaled by the multiplier, and the
resulting speeds always satisfy `speed4/speed1 = 8`,
`speed3/speed1 = 4` and `speed2/speed1 = 2`.  The multiplier ladder of
the program ({1/4, 1/2, 1, 2, 3, 4}, see `spincUp`/`spincDown` and
`spincUp_ne_zero`/`spincDown_ne_zero`) never reaches 0, so the nonzero
hypothesis covers every value the multiplier takes. -/
theorem C5_speed_table :
    ∀ g : GameState, g.spinc ≠ 0 → g.actSize < 4 →
      ((g.actSize = 0 → g.setSpeed.scrollText1.speed = 8 * g.spinc ∧
          g.setSpeed.scrollText2.speed = 16 * g.spinc ∧
          g.setSpeed.scrollText3.speed = 32 * g.spinc ∧
          g.setSpeed.scrollText4.speed = 64 * g.spinc) ∧
        (g.actSize = 1 → g.setSpeed.scrollText1.speed = 4 * g.spinc ∧
          g.setSpeed.scrollText2.speed = 8 * g.spinc ∧
          g.setSpeed.scrollText3.speed = 16 * g.spinc ∧
          g.setSpeed.scrollText4.speed = 32 * g.spinc) ∧
        (g.actSize = 2 → g.setSpeed.scrollText1.speed = 2 * g.spinc ∧
          g.setSpeed.scrollText2.speed = 4 * g.spinc ∧
          g.setSpeed.scrollText3.speed = 8 * g.spinc ∧
          g.setSpeed.scrollText4.speed = 16 * g.spinc) ∧
        (g.actSize = 3 → g.setSpeed.scrollText1.speed = 1 * g.spinc ∧
          g.setSpeed.scrollText2.speed = 2 * g.spinc ∧
          g.setSpeed.scrollText3.speed = 4 * g.spinc ∧
          g.setSpeed.scrollText4.speed = 8 * g.spinc)) ∧
      g.setSpeed.scrollText4.speed / g.setSpeed.scrollText1.speed = 8 ∧
      g.setSpeed.scrollText3.speed / g.setSpeed.scrollText1.speed = 4 ∧
      g.setSpeed.scrollText2.speed / g.setSpeed.scrollText1.speed = 2 := by
  rintro ⟨s1, s2, s3, s4, act, sp, fc, tg⟩ hsp hact
  simp only at hsp hact
  interval_cases act <;>
    refine ⟨⟨?_, ?_, ?_, ?_⟩, ?_, ?_, ?_⟩ <;>
      simp_all [GameState.setSpeed] <;>
      field_simp <;> ring

/-- Witness for C5: the initial state of the program (multiplier 1,
active tier 0) and an arbitrary state with multiplier 3, active tier 2
both exhibit the base rows and the 1:2:4:8 quotients. -/
theorem C5_speed_table_witness :
    speedWitnessState.setSpeed.scrollText1.speed = 2 * 3 ∧
    speedWitnessState.setSpeed.scrollText4.speed /
      speedWitnessState.setSpeed.scrollText1.speed = 8 := by
  have h := C5_speed_table speedWitnessState (by norm_num [speedWitnessState])
    (by norm_num [speedWitnessState])
  exact ⟨(h.1.2.2.1 rfl).1, h.2.1⟩

/-- Claim C6 (confirmed): `drawAt` sets the offset to exactly the given
value, changing no other field — in particular no speed change and no
wrap check — and each tick, after the master tier `scrollText1`
advances, every follower tier `k ∈ {2,3,4}` ends the tick at exactly
the derived offset `masterOffset × scaleX_k + (1 − scaleX_k) ×
masterCanvasWidth`, a value independent of the follower's own speed, so
followers never advance their offset by their own speed. -/
theorem C6_followers_phase_locked :
    (∀ (st : ScrollText) (o : ℚ), st.drawAt o = { st with offset := o }) ∧
    (∀ g : GameState,
      g.scrollTick.scrollText2.offset =
        g.scrollText1.draw.offset * g.scrollText2.scaleX +
          (1 - g.scrollText2.scaleX) * (g.scrollText1.canvasW : ℚ) ∧
      g.scrollTick.scrollText3.offset =
        g.scrollText1.draw.offset * g.scrollText3.scaleX +
          (1 - g.scrollText3.scaleX) * (g.scrollText1.canvasW : ℚ) ∧
      g.scrollTick.scrollText4.offset =
        g.scrollText1.draw.offset * g.scrollText4.scaleX +
          (1 - g.scrollText4.scaleX) * (g.scrollText1.canvasW : ℚ)) := by
  refine ⟨fun st o => rfl, fun g => ?_⟩
  have hcw : g.scrollText1.draw.canvasW = g.scrollText1.canvasW := by
    rw [draw_offset]
  have h2 := updateActSize_offsets
    { g with
      scrollText1 := g.scrollText1.draw
      scrollText2 := g.scrollText2.drawAt
        (g.scrollText1.draw.offset * g.scrollText2.scaleX +
          (1 - g.scrollText2.scaleX) * (g.scrollText1.draw.canvasW : ℚ))
      scrollText3 := g.scrollText3.drawAt
        (g.scrollText1.draw.offset * g.scrollText3.scaleX +
          (1 - g.scrollText3.scaleX) * (g.scrollText1.draw.canvasW : ℚ))
      scrollText4 := g.scrollText4.drawAt
        (g.scrollText1.draw.offset * g.scrollText4.scaleX +
          (1 - g.scrollText4.scaleX) * (g.scrollText1.draw.canvasW : ℚ)) }
  refine ⟨?_, ?_, ?_⟩
  · rw [← hcw]
    exact h2.2.1
  · rw [← hcw]
    exact h2.2.2.1
  · rw [← hcw]
    exact h2.2.2.2

theorem clamp_eq_min (x t : ℤ) : (if x ≥ t then t - 1 else x) = min x (t - 1) := by
  split_ifs with h <;> omega

/-- Claim C1 (confirmed): each tick the resolver computes, from the
current master tier's offset and tile geometry,
`leftGlyph = max 0 ⌊−offset / (tileW × scaleX)⌋`,
`visibleGlyphs = ⌈canvasWidth / (tileW × scaleX)⌉ + 1` and
`glyphPos = min (leftGlyph + visibleGlyphs) (totalGlyphs − 1)`, resolves
the active tier as the tier of the last Font-Change Index entry whose
position is `≤ glyphPos` (default tier 0 when no entry precedes it),
and on a change stores the new tier and recomputes all four speeds —
stated as equality with `resolveSpec`, the resolver written in exactly
those spec terms, under the index-sortedness invariant and the
always-true guards (`totalGlyphs ≠ 0`, positive scaled tile width).
The scenario: for the index `[(2,1),(4,0)]` (`totalGlyphs = 6`), the
lookup yields tier 1 at glyph position 3, tier 0 at position 5, and the
default tier 0 at position 0, both for the program's lookup loop
(`lookupSize`) and for the spec's last-entry rule (`lookupLast`). -/
theorem C1_activity_resolver :
    (∀ g : GameState,
      g.fontChanges.Pairwise (fun a b => a.position ≤ b.position) →
      g.totalGlyphs ≠ 0 →
      0 < (g.masterTier.tileW : ℚ) * g.masterTier.scaleX →
      g.updateActSizeFromScroll = resolveSpec g) ∧
    lookupSize scenarioChanges 3 0 = 1 ∧
    lookupSize scenarioChanges 5 0 = 0 ∧
    lookupSize scenarioChanges 0 0 = 0 ∧
    lookupLast scenarioChanges 3 = 1 ∧
    lookupLast scenarioChanges 5 = 0 ∧
    lookupLast scenarioChanges 0 = 0 := by
  refine ⟨fun g hs h0 htw => ?_, by decide, by decide, by decide,
    by decide, by decide, by decide⟩
  simp only [GameState.updateActSizeFromScroll, resolveSpec]
  rw [if_neg h0, if_neg (not_le.mpr htw), clamp_eq_min,
    lookupLast_eq_lookupSize _ hs]
  simp only [ne_eq, ite_not]

/-- Witness for C1: the resolver agrees with its spec-side form on
the concrete scenario state. -/
theorem C1_activity_resolver_witness :
    resolverWitnessState.updateActSizeFromScroll =
      resolveSpec resolverWitnessState := by
  apply C1_activity_resolver.1
  · decide
  · decide
  · show (0 : ℚ) < (resolverWitnessState.masterTier.tileW : ℚ) *
      resolverWitnessState.masterTier.scaleX
    have h1 : resolverWitnessState.masterTier = scenarioTier := rfl
    have h2 : scenarioTier.tileW = 40 := rfl
    have h3 : scenarioTier.scaleX = 1 := rfl
    rw [h1, h2, h3]
    norm_num

theorem untoks_maskToks_length (size : Nat) (a : Bool) (ts : List Tok) :
    (untoks (maskToks size a ts)).length = (untoks ts).length := by
  induction ts generalizing a with
  | nil => rfl
  | cons t ts ih =>
    cases t with
    | dir code =>
      rw [maskToks, untoks, untoks, List.length_append, List.length_append, ih]
    | lit c =>
      rw [maskToks, untoks, untoks, List.length_cons, List.length_cons, ih]

/-- Claim C7 (confirmed): for every tier id and default-active flag the
rebuilt string has exactly the master's length, and it is the master's
token sequence rendered back with every directive token kept verbatim
(hence at the same byte positions) and every visible character kept
exactly while the most recent directive selected this tier — before any
directive, exactly while the default-active flag is set — and blanked
to `' '` otherwise: `rebuildText text size d = untoks (maskToks size d
(toks text))` together with `untoks (toks text) = text`, where
`maskToks` is that masking rule.  The scenario: for master
`"AB^Cs1;CD^Cs0;EF"` tier 0 with default-active yields
`"AB^Cs1;  ^Cs0;EF"` and tier 1 yields `"  ^Cs1;CD^Cs0;  "`. -/
theorem C7_rebuild_verbatim :
    (∀ (text : List Char) (size : Nat) (d : Bool),
      (rebuildText text size d).length = text.length) ∧
    (∀ (text : List Char) (size : Nat) (d : Bool),
      rebuildText text size d = untoks (maskToks size d (toks text)) ∧
      untoks (toks text) = text) ∧
    rebuildText ("AB^Cs1;CD^Cs0;EF".toList) 0 true =
      "AB^Cs1;  ^Cs0;EF".toList ∧
    rebuildText ("AB^Cs1;CD^Cs0;EF".toList) 1 false =
      "  ^Cs1;CD^Cs0;  ".toList := by
  refine ⟨fun text size d => ?_,
    fun text size d => ⟨rebuildGo_eq_toks size d text, untoks_toks text⟩,
    by decide, by decide⟩
  rw [rebuildText, rebuildGo_eq_toks, untoks_maskToks_length, untoks_toks]

/-- Claim C10 (confirmed): rebuilding for any tier and default-active
flag preserves the visible-glyph count of the master message, so every
`ScrollText` constructed from a rebuilt string gets the same
`visibleChars` value (the master's), keeping the per-scale wraparound
widths `visibleChars × tileW × scaleX` consistent across tiers. -/
theorem C10_rebuild_glyph_count :
    ∀ (text : List Char) (size : Nat) (defaultActive : Bool),
      countVisibleChars (rebuildText text size defaultActive) =
        countVisibleChars text ∧
      ∀ (canvasW tileW tileH : Nat) (scaleX scaleY : ℚ),
        (newScrollText canvasW tileW tileH scaleX scaleY
          (rebuildText text size defaultActive)).visibleChars =
          countVisibleChars text := by
  intro text size d
  have h1 : countVisibleChars (rebuildText text size d) =
      countVisibleChars text := by
    rw [rebuildText, rebuildGo_eq_toks, countVisibleChars_eq_toks,
      toks_untoks (goodToks_maskToks size d (toks text) (goodToks_toks text)),
      litChars_maskToks_length, ← countVisibleChars_eq_toks]
  exact ⟨h1, fun cw tw th sx sy => h1⟩

/-- Claim C4 (counterexample): the claim as stated fails on the
concrete tier of the wraparound scenario (`totalWidth = 400`,
`canvasWidth = 640`, speed 8, start offset 640): `totalWidth/speed`
is 50 ticks, after which the offset is 240 — more than one speed-step
(8) away from the starting offset 640.  The actual loop period is
`(totalWidth + canvasWidth)/speed = 130` ticks, as the wrap increment
is `totalWidth + canvasWidth`. -/
theorem C4_wrap_period_counterexample :
    scenarioTier.totalWidth / scenarioTier.speed = 50 ∧
    ((ScrollText.draw)^[50] scenarioTier).offset = 240 ∧
    ¬ |((ScrollText.draw)^[50] scenarioTier).offset - scenarioTier.offset| ≤
      scenarioTier.speed := by
  obtain ⟨hv, htw, hoff, hsp, hcw⟩ := scenarioTier_facts
  have h50 : ((ScrollText.draw)^[50] scenarioTier).offset = 240 := by
    rw [draw_iterate_offset]
    show (drawStep scenarioTier.totalWidth (scenarioTier.canvasW : ℚ)
      scenarioTier.speed)^[50] scenarioTier.offset = 240
    have hnw := @drawStep_no_wrap scenarioTier.totalWidth
      (scenarioTier.canvasW : ℚ) scenarioTier.speed
      (by rw [hsp]; norm_num) scenarioTier.offset 50
      (by rw [htw, hoff, hsp]; push_cast; norm_num)
    rw [hnw, hoff, hsp]
    push_cast
    norm_num
  refine ⟨by rw [htw, hsp]; norm_num, h50, ?_⟩
  rw [h50, hoff, hsp]
  rw [show (240 : ℚ) - 640 = -400 from by norm_num]
  rw [abs_le]
  push_neg
  intro hc
  norm_num at hc

/-- Claim C4 (amended): the claim holds with the loop period corrected
to `(totalWidth + canvasWidth)/speed` ticks — the wrap adds
`totalWidth + canvasWidth`, not `totalWidth` — for any tier whose
positive speed divides that period into `N` whole ticks and whose
offset lies in the wrap window `(−totalWidth, canvasWidth]`: after `N`
advances the offset returns exactly (hence within one speed-step) to
its starting value. -/
theorem C4_wrap_period_amended :
    ∀ (st : ScrollText) (N : Nat),
      0 < st.speed → 0 < st.visibleChars → 0 < st.totalWidth →
      (N : ℚ) * st.speed = st.wrapWidth →
      -st.totalWidth < st.offset → st.offset ≤ (st.canvasW : ℚ) →
      ((ScrollText.draw)^[N] st).offset = st.offset := by
  intro st N hs hv hT hN ho1 ho2
  rw [ScrollText.wrapWidth] at hN
  rw [draw_iterate_offset]
  show (drawStep st.totalWidth (st.canvasW : ℚ) st.speed)^[N] st.offset =
    st.offset
  exact drawStep_period hT (Nat.cast_nonneg _) hs hN ho1 ho2

/-- Witness for the amended C4: the scenario tier returns to its start
offset after `(400 + 640)/8 = 130` advances. -/
theorem C4_wrap_period_amended_witness :
    ((ScrollText.draw)^[130] scenarioTier).offset = scenarioTier.offset := by
  obtain ⟨hv, htw, hoff, hsp, hcw⟩ := scenarioTier_facts
  exact C4_wrap_period_amended scenarioTier 130
    (by rw [hsp]; norm_num)
    (by rw [hv]; norm_num)
    (by rw [htw]; norm_num)
    (by rw [ScrollText.wrapWidth, htw, hsp, hcw]; push_cast; norm_num)
    (by rw [htw, hoff]; norm_num)
    (by rw [hoff, hcw]; push_cast; norm_num)

theorem countVisibleChars_dirChars_append {code : Nat} (hd : code < 4)
    (u : List Char) :
    countVisibleChars (dirChars code ++ u) = countVisibleChars u := by
  have hp : parseControlCode
      ('^' :: 'C' :: 's' :: Char.ofNat (48 + code) :: ';' :: u) = some code :=
    parse_dirChars_append hd u
  show countVisibleChars
    ('^' :: 'C' :: 's' :: Char.ofNat (48 + code) :: ';' :: u) = _
  rw [countVisibleChars_cons_some hp]
  rfl

theorem countVisibleChars_seg_append {s r : List Char}
    (hdf : dirFree s = true) (hr : r = [] ∨ ∃ r', r = '^' :: r') :
    countVisibleChars (s ++ r) = s.length + countVisibleChars r := by
  induction s with
  | nil => simp
  | cons c s' ih =>
    rw [dirFree, Bool.and_eq_true] at hdf
    have hdf1 : parseControlCode (c :: s') = none :=
      Option.isNone_iff_eq_none.mp hdf.1
    have hpar : parseControlCode (c :: (s' ++ r)) = none := by
      cases hp : parseControlCode (c :: (s' ++ r)) with
      | none => rfl
      | some d =>
        exfalso
        obtain ⟨hd4, ht⟩ := parse_some_take5 hp
        by_cases hlen : 5 ≤ (c :: s').length
        · rw [show c :: (s' ++ r) = (c :: s') ++ r from rfl,
            List.take_append_of_le_length hlen] at ht
          rw [parse_of_take5 hd4 ht] at hdf1
          cases hdf1
        · push_neg at hlen
          rcases hr with rfl | ⟨r', rfl⟩
          · rw [List.append_nil] at hp
            rw [hp] at hdf1
            cases hdf1
          · rw [show dirChars d =
              '^' :: 'C' :: 's' :: Char.ofNat (48 + d) :: ';' :: [] from
                rfl] at ht
            rcases s' with _ | ⟨a1, _ | ⟨a2, _ | ⟨a3, _ | ⟨a4, s5⟩⟩⟩⟩
            · simp only [List.nil_append, List.take_succ_cons] at ht
              injection ht with h1 ht
              injection ht with h2 ht
              exact absurd h2 (by decide)
            · simp only [List.cons_append, List.nil_append,
                List.take_succ_cons] at ht
              injection ht with h1 ht
              injection ht with h2 ht
              injection ht with h3 ht
              exact absurd h3 (by decide)
            · simp only [List.cons_append, List.nil_append,
                List.take_succ_cons] at ht
              injection ht with h1 ht
              injection ht with h2 ht
              injection ht with h3 ht
              injection ht with h4 ht
              interval_cases d <;> exact absurd h4 (by decide)
            · simp only [List.cons_append, List.nil_append,
                List.take_succ_cons] at ht
              injection ht with h1 ht
              injection ht with h2 ht
              injection ht with h3 ht
              injection ht with h4 ht
              injection ht with h5 ht
              exact absurd h5 (by decide)
            · rw [List.length_cons, List.length_cons, List.length_cons,
                List.length_cons, List.length_cons] at hlen
              omega
    rw [show (c :: s') ++ r = c :: (s' ++ r) from rfl,
      countVisibleChars_cons_none hpar, ih hdf.2, List.length_cons]
    omega

theorem noAdjacentSegs_tail {p : Piece} {ps : List Piece}
    (h : noAdjacentSegs (p :: ps) = true) : noAdjacentSegs ps = true := by
  cases ps with
  | nil => rfl
  | cons q ps' =>
    cases p with
    | seg s =>
      cases q with
      | seg s2 =>
        rw [show noAdjacentSegs (Piece.seg s :: Piece.seg s2 :: ps') = false
          from rfl] at h
        cases h
      | tok code => exact h
    | tok code => exact h

/-- Claim C8 (counterexample): the claim as stated fails for the
concatenation of the two adjacent directive-free literal segments
`"X^"` and `"Cs1;"`: their juxtaposition spells the directive token
`"^Cs1;"`, so `countVisibleChars` returns 1 (only `'X'`), not the
total literal length 6. -/
theorem C8_round_trip_counterexample :
    piecesOk [Piece.seg ('X' :: '^' :: []),
      Piece.seg ('C' :: 's' :: '1' :: ';' :: [])] = true ∧
    litLen [Piece.seg ('X' :: '^' :: []),
      Piece.seg ('C' :: 's' :: '1' :: ';' :: [])] = 6 ∧
    countVisibleChars (renderPieces [Piece.seg ('X' :: '^' :: []),
      Piece.seg ('C' :: 's' :: '1' :: ';' :: [])]) = 1 := by
  decide

/-- Claim C8 (amended): restricted to builds in which no two literal
segments are adjacent (every boundary between literal text and literal
text is interrupted by a directive token, as in the program's own
message), `countVisibleChars` of the concatenation equals exactly the
total length of the literal segments. -/
theorem C8_round_trip_amended :
    ∀ ps : List Piece, piecesOk ps = true → noAdjacentSegs ps = true →
      countVisibleChars (renderPieces ps) = litLen ps := by
  intro ps
  induction ps with
  | nil => intro _ _; rfl
  | cons p ps ih =>
    intro hok hadj
    have hadj' := noAdjacentSegs_tail hadj
    cases p with
    | tok code =>
      rw [piecesOk, Bool.and_eq_true] at hok
      rw [renderPieces, renderPiece, litLen,
        countVisibleChars_dirChars_append (of_decide_eq_true hok.1),
        ih hok.2 hadj']
    | seg s =>
      rw [piecesOk, Bool.and_eq_true] at hok
      rw [renderPieces, renderPiece, litLen]
      have hr : renderPieces ps = [] ∨
          ∃ r', renderPieces ps = '^' :: r' := by
        cases ps with
        | nil => left; rfl
        | cons q ps' =>
          cases q with
          | seg s2 =>
            rw [show noAdjacentSegs (Piece.seg s :: Piece.seg s2 :: ps') =
              false from rfl] at hadj
            cases hadj
          | tok code =>
            right
            exact ⟨'C' :: 's' :: Char.ofNat (48 + code) :: ';' ::
              renderPieces ps', rfl⟩
      rw [countVisibleChars_seg_append hok.1 hr, ih hok.2 hadj']

/-- Witness for the amended C8: the build
`["AB", token 1, "CD"]` has visible-glyph count 4, the total literal
length. -/
theorem C8_round_trip_amended_witness :
    countVisibleChars (renderPieces [Piece.seg ('A' :: 'B' :: []),
      Piece.tok 1, Piece.seg ('C' :: 'D' :: [])]) =
      litLen [Piece.seg ('A' :: 'B' :: []), Piece.tok 1,
        Piece.seg ('C' :: 'D' :: [])] :=
  C8_round_trip_amended _ (by decide) (by decide)

/-- Claim C2 (counterexample): the claim as stated fails on the
program's own master message: its glyph position 0 is a space (the
message opens with ten blanks) inside the default-active span, so all
four rebuilt tiers — `rebuildText` for tiers 0..3 with
`defaultActive` exactly for tier 0, as `NewGame` calls it — carry the
blank character `' '` at the corresponding position (byte position 0),
and no tier, rather than exactly one, is non-blank there. -/
theorem C2_partition_counterexample :
    0 < countVisibleChars fullText ∧
    litBytePos (toks fullText) 0 = 0 ∧
    fullText.getD 0 ' ' = ' ' ∧
    (rebuildText fullText 0 true).getD 0 ' ' = ' ' ∧
    (rebuildText fullText 1 false).getD 0 ' ' = ' ' ∧
    (rebuildText fullText 2 false).getD 0 ' ' = ' ' ∧
    (rebuildText fullText 3 false).getD 0 ' ' = ' ' := by
  decide

theorem lookupLast_fontChanges_lt_four (text : List Char) (p : Nat) :
    lookupLast (fontChangesOf text) (p : ℤ) < 4 := by
  have hts : fontChangesOf text = idxToks 0 (toks text) := by
    rw [fontChangesOf, preAnalyzeGo_eq_toks]
  rw [hts, lookupLast_eq_lookupSize _ (idxToks_pairwise 0 (toks text))]
  exact lookupSize_lt_four (idxToks_newSize_lt (goodToks_toks text)) 0
    (by norm_num)

theorem rebuildText_getD_glyph (text : List Char) (p : Nat)
    (hp : p < countVisibleChars text) (size : Nat) :
    (rebuildText text size (size == 0)).getD (litBytePos (toks text) p) ' ' =
      if lookupLast (fontChangesOf text) (p : ℤ) = size
      then text.getD (litBytePos (toks text) p) ' ' else ' ' := by
  have hts : fontChangesOf text = idxToks 0 (toks text) := by
    rw [fontChangesOf, preAnalyzeGo_eq_toks]
  have hp' : p < (litChars (toks text)).length := by
    rw [← countVisibleChars_eq_toks]
    exact hp
  have hsorted := idxToks_pairwise 0 (toks text)
  have hlookup : lookupLast (fontChangesOf text) (p : ℤ) =
      lookupSize (idxToks 0 (toks text)) (p : ℤ) 0 := by
    rw [hts]
    exact lookupLast_eq_lookupSize _ hsorted
  have htier : (tiersToks 0 (toks text)).getD p 0 =
      lookupSize (idxToks 0 (toks text)) (p : ℤ) 0 := by
    have h := tiersToks_lookupSize (toks text) 0 0 p hp'
    simpa using h
  have hmaster : text.getD (litBytePos (toks text) p) ' ' =
      (litChars (toks text)).getD p ' ' := by
    have h0 : text.getD (litBytePos (toks text) p) ' ' =
        (untoks (toks text)).getD (litBytePos (toks text) p) ' ' := by
      rw [untoks_toks]
    exact h0.trans (untoks_getD_litBytePos (toks text) p hp')
  have hreb : (rebuildText text size (size == 0)).getD
      (litBytePos (toks text) p) ' ' =
      (litChars (maskToks size (size == 0) (toks text))).getD p ' ' := by
    rw [rebuildText, rebuildGo_eq_toks,
      ← litBytePos_maskToks size (size == 0) (toks text) p]
    apply untoks_getD_litBytePos
    rw [litChars_maskToks_length]
    exact hp'
  have hbeq : (size == 0) = ((0 : Nat) == size) := by
    by_cases h0 : size = 0
    · subst h0
      rfl
    · rw [beq_eq_false_iff_ne.mpr h0,
        beq_eq_false_iff_ne.mpr (Ne.symm h0)]
  rw [hreb, hbeq, litChars_maskToks size (toks text) 0]
  have hlen1 : p < (tiersToks 0 (toks text)).length := by
    rw [tiersToks_length]
    exact hp'
  have hlz : p < (List.zipWith (fun t c => if t = size then c else ' ')
      (tiersToks 0 (toks text)) (litChars (toks text))).length := by
    rw [List.length_zipWith]
    omega
  rw [List.getD_eq_getElem _ _ hlz, List.getElem_zipWith,
    ← List.getD_eq_getElem (tiersToks 0 (toks text)) 0 hlen1,
    ← List.getD_eq_getElem (litChars (toks text)) ' ' hp',
    htier, ← hlookup, hmaster]

/-- Claim C2 (amended): at every glyph position of the master message,
the tier resolved by the Font-Change Index lookup is one of the four
tiers, and the rebuilt strings — built with `defaultActive` exactly for
tier 0, as the program does — partition as follows at the corresponding
position (the byte position `litBytePos` of the `p`-th glyph, identical
in master and rebuilt strings since directives are kept verbatim): when
the master character there is not the blank `' '`, a tier's rebuilt
string is non-blank at that position if and only if it is the resolved
tier (so exactly one of the four is); when the master character is
itself a blank, every tier's rebuilt string holds a blank there.  For
glyph positions before any directive the lookup yields the default
tier 0, the tier built with `defaultActive = true`. -/
theorem C2_partition_amended :
    ∀ (text : List Char) (p : Nat), p < countVisibleChars text →
      lookupLast (fontChangesOf text) (p : ℤ) < 4 ∧
      (text.getD (litBytePos (toks text) p) ' ' ≠ ' ' →
        ∀ size : Nat,
          ((rebuildText text size (size == 0)).getD
              (litBytePos (toks text) p) ' ' ≠ ' ' ↔
            size = lookupLast (fontChangesOf text) (p : ℤ))) ∧
      (text.getD (litBytePos (toks text) p) ' ' = ' ' →
        ∀ size : Nat,
          (rebuildText text size (size == 0)).getD
            (litBytePos (toks text) p) ' ' = ' ') := by
  intro text p hp
  refine ⟨lookupLast_fontChanges_lt_four text p,
    fun hm size => ?_, fun hm size => ?_⟩
  · rw [rebuildText_getD_glyph text p hp size]
    by_cases hact : lookupLast (fontChangesOf text) (p : ℤ) = size
    · rw [if_pos hact]
      exact iff_of_true hm hact.symm
    · rw [if_neg hact]
      exact ⟨fun hc => absurd rfl hc, fun hc => absurd hc.symm hact⟩
  · rw [rebuildText_getD_glyph text p hp size]
    split_ifs with h
    · exact hm
    · rfl

/-- Witness for the amended C2: in the message `"AB^Cs1;CD"` the glyph
at position 2 is `'C'` (non-blank), the resolved tier there is within
the four tiers, and exactly the tier-1 rebuild is non-blank at its byte
position; in the message `"A B"` the glyph at position 1 is a blank and
the default-active tier-0 rebuild is blank there as well. -/
theorem C2_partition_amended_witness :
    (2 < countVisibleChars ("AB^Cs1;CD".toList) ∧
      ("AB^Cs1;CD".toList).getD
        (litBytePos (toks ("AB^Cs1;CD".toList)) 2) ' ' ≠ ' ' ∧
      lookupLast (fontChangesOf ("AB^Cs1;CD".toList)) ((2 : Nat) : ℤ) < 4 ∧
      ((rebuildText ("AB^Cs1;CD".toList) 1 ((1 : Nat) == 0)).getD
          (litBytePos (toks ("AB^Cs1;CD".toList)) 2) ' ' ≠ ' ' ↔
        1 = lookupLast (fontChangesOf ("AB^Cs1;CD".toList)) ((2 : Nat) : ℤ))) ∧
    (1 < countVisibleChars ("A B".toList) ∧
      ("A B".toList).getD (litBytePos (toks ("A B".toList)) 1) ' ' = ' ' ∧
      (rebuildText ("A B".toList) 0 ((0 : Nat) == 0)).getD
        (litBytePos (toks ("A B".toList)) 1) ' ' = ' ') := by
  have h := C2_partition_amended ("AB^Cs1;CD".toList) 2 (by decide)
  have h2 := C2_partition_amended ("A B".toList) 1 (by decide)
  exact ⟨⟨by decide, by decide, h.1, h.2.1 (by decide) 1⟩,
    by decide, by decide, h2.2.2 (by decide) 0⟩

end Intro
